import Mathlib

/-!
Verification of the LoRaSense payload-decoding core (`src/common/decoder.py`,
with the duplicated copies in `src/libs/common/decoder.py` and
`src/services/uplink/src/app.py`).

The Python decoder turns a byte payload into a bit string, reads fixed-width
unsigned bitfields most-significant-bit first, applies affine scale/offset
transforms with a decimal rounding helper, and dispatches between two sensor
profiles through a case-insensitive factory.  We embed that pipeline shallowly:
bytes become `List ℕ`, the bit string becomes `List Bool`, Python numbers
become `ℚ`, and Python's `round` (round half to even on the scaled value)
becomes `pyRound`.
-/

/-- The reader state of `BaraniDecoder`: the bit string built by `data2bits`
(`self.bindata`) and the bit cursor (`self.pos`). -/
structure BDState where
  bindata : List Bool
  pos : ℕ
deriving DecidableEq, Repr

/-- `dec2bin`/`pad`: one byte as its 8-bit binary string, MSB first. -/
def dec2bin (b : ℕ) : List Bool :=
  (List.range 8).map (fun i => b.testBit (7 - i))

/-- `data2bits`: concatenation of the 8-bit strings of all payload bytes. -/
def data2bits (data : List ℕ) : List Bool :=
  data.flatMap dec2bin

/-- `bin2dec`: value of a binary string read MSB first. -/
def bin2dec (l : List Bool) : ℕ :=
  l.foldl (fun acc b => 2 * acc + (if b then 1 else 0)) 0

/-- `BaraniDecoder.bitShift`: if fewer than `bits` bits remain past the cursor
the call returns `0` and leaves the state untouched; otherwise it returns the
value of the next `bits` bits and advances the cursor by `bits`. -/
def bitShift (st : BDState) (bits : ℕ) : ℕ × BDState :=
  if st.pos + bits > st.bindata.length then (0, st)
  else (bin2dec ((st.bindata.drop st.pos).take bits), ⟨st.bindata, st.pos + bits⟩)

/-- Python 3 `round` to an integer: nearest integer, ties to the even one. -/
def pyRound (q : ℚ) : ℤ :=
  if q - ⌊q⌋ < 1 / 2 then ⌊q⌋
  else if 1 / 2 < q - ⌊q⌋ then ⌊q⌋ + 1
  else if ⌊q⌋ % 2 = 0 then ⌊q⌋ else ⌊q⌋ + 1

/-- `BaraniDecoder.precisionRound`: `round(number * 10^precision) / 10^precision`. -/
def precisionRound (number : ℚ) (precision : ℕ) : ℚ :=
  (pyRound (number * 10 ^ precision) : ℚ) / 10 ^ precision

/-- The eleven fields of the primary (Barani) profile's decoded record, in the
insertion order of the Python dict. -/
structure BaraniRecord where
  Type' : ℚ
  Battery : ℚ
  Temperature : ℚ
  T_min : ℚ
  T_max : ℚ
  Humidity : ℚ
  Pressure : ℚ
  Irradiation : ℚ
  Irr_max : ℚ
  Rain : ℚ
  Rain_min_time : ℚ
deriving DecidableEq, Repr

/-- The bit widths consumed by `BaraniDecoder.decode`, in call order. -/
def baraniWidths : List ℕ := [2, 5, 11, 6, 6, 9, 14, 10, 9, 8, 8]

/-- Run the reader over a list of widths, collecting each `bitShift` result. -/
def runReads : BDState → List ℕ → List ℕ × BDState
  | st, [] => ([], st)
  | st, w :: ws =>
    let r := bitShift st w
    let rest := runReads r.2 ws
    (r.1 :: rest.1, rest.2)

/-- The raw bitfield values extracted by `BaraniDecoder.decode`. -/
def baraniRaws (payload : List ℕ) : List ℕ :=
  (runReads ⟨data2bits payload, 0⟩ baraniWidths).1

/-- The `i`-th raw value as a rational. -/
def rawAt (raws : List ℕ) (i : ℕ) : ℚ :=
  (raws.getD i 0 : ℚ)

/-- The `Temperature` intermediate of `BaraniDecoder.decode`:
`precisionRound(bitShift(11)*0.1 - 100, 1)`. -/
def baraniTemperature (raws : List ℕ) : ℚ :=
  precisionRound (rawAt raws 2 * (1 / 10) - 100) 1

/-- The field transforms of `BaraniDecoder.decode`, applied to the raw values
in source order (`Pressure` is divided by 100 when the dict is assembled). -/
def baraniFromRaws (raws : List ℕ) : BaraniRecord where
  Type' := rawAt raws 0
  Battery := precisionRound (rawAt raws 1 * (5 / 100) + 3) 2
  Temperature := baraniTemperature raws
  T_min := precisionRound (baraniTemperature raws - rawAt raws 3 * (1 / 10)) 1
  T_max := precisionRound (baraniTemperature raws + rawAt raws 4 * (1 / 10)) 1
  Humidity := precisionRound (rawAt raws 5 * (2 / 10)) 1
  Pressure := (rawAt raws 6 * 5 + 50000) / 100
  Irradiation := rawAt raws 7 * 2
  Irr_max := rawAt raws 7 * 2 + rawAt raws 8 * 2
  Rain := precisionRound (rawAt raws 9) 1
  Rain_min_time := precisionRound (rawAt raws 10) 1

/-- `BaraniDecoder.decode`: read the eleven bitfields in order, then apply the
affine transforms. -/
def BaraniDecode (payload : List ℕ) : BaraniRecord :=
  baraniFromRaws (baraniRaws payload)

/-- A value of the dicts returned by `ExampleSensorDecoder.decode`: either a
number or a string. -/
inductive PyVal where
  | num (q : ℚ)
  | str (s : String)
deriving DecidableEq, Repr

/-- `ExampleSensorDecoder.decode`: payloads shorter than 2 bytes give the
error dict; otherwise byte 0 minus 40 is the temperature, byte 1 the
humidity, plus a fixed `Status` string.  The dict is kept as an association
list in insertion order. -/
def simpleDecode (payload : List ℕ) : List (String × PyVal) :=
  if payload.length < 2 then [("error", .str "Payload too short")]
  else
    [ ("Temperature", .num ((payload.getD 0 0 : ℚ) - 40))
    , ("Humidity", .num (payload.getD 1 0 : ℚ))
    , ("Status", .str "Simple Decoded") ]

/-- The decoder classes the factory can select. -/
inductive DecoderKind where
  | barani
  | simple
deriving DecidableEq, Repr

/-- The result of `decode_payload`: the dict of whichever decoder ran. -/
inductive Decoded where
  | barani (r : BaraniRecord)
  | simple (r : List (String × PyVal))
deriving DecidableEq, Repr

/-- Python `str.lower` on an ASCII character. -/
def lowerChar (c : Char) : Char :=
  if 'A' ≤ c ∧ c ≤ 'Z' then Char.ofNat (c.toNat + 32) else c

/-- Python `str.lower` (ASCII range, as used by the factory keys). -/
def pyLower (s : String) : String :=
  String.mk (s.data.map lowerChar)

/-- `DecoderFactory._decoders`: the registry table. -/
def decoderTable : List (String × DecoderKind) :=
  [("v1", .barani), ("barani", .barani), ("simple", .simple)]

/-- `DecoderFactory.get_decoder`: case-insensitive lookup, defaulting to the
Barani decoder for unknown identifiers. -/
def get_decoder (config_str : String) : DecoderKind :=
  match decoderTable.lookup (pyLower config_str) with
  | some k => k
  | none => .barani

/-- `decode_payload`: resolve the decoder and run it. -/
def decode_payload (payload_bytes : List ℕ) (config_str : String) : Decoded :=
  match get_decoder config_str with
  | .barani => .barani (BaraniDecode payload_bytes)
  | .simple => .simple (simpleDecode payload_bytes)

/-- The rounding function the specification's words describe: round to the
nearest integer, ties away from zero. -/
def roundHalfAwayFromZero (q : ℚ) : ℤ :=
  if 0 ≤ q then ⌊q + 1 / 2⌋ else -⌊-q + 1 / 2⌋

/-- The cursor positions after each `bitShift` call of a decode, in call
order, starting from state `st` and reading the given widths. -/
def posTrace (st : BDState) : List ℕ → List ℕ
  | [] => []
  | w :: ws => (bitShift st w).2.pos :: posTrace (bitShift st w).2 ws

/-! ## Helper lemmas -/

lemma pyRound_intCast (m : ℤ) : pyRound (m : ℚ) = m := by
  simp [pyRound]

lemma precisionRound_of_scaled_int (q : ℚ) (p : ℕ) (m : ℤ)
    (h : q * 10 ^ p = (m : ℚ)) : precisionRound q p = q := by
  have hf : (10 : ℚ) ^ p ≠ 0 := by positivity
  unfold precisionRound
  rw [h, pyRound_intCast, ← h]
  field_simp

lemma pyRound_abs_le (q : ℚ) : |(pyRound q : ℚ) - q| ≤ 1 / 2 := by
  have h0 : ((⌊q⌋ : ℚ)) ≤ q := Int.floor_le q
  have h1 : q < (⌊q⌋ : ℚ) + 1 := Int.lt_floor_add_one q
  unfold pyRound
  split_ifs with h2 h3 h4 <;> rw [abs_le] <;> constructor <;> push_cast <;> linarith

lemma pyRound_tie_even (q : ℚ) (h : |(pyRound q : ℚ) - q| = 1 / 2) :
    (2 : ℤ) ∣ pyRound q := by
  have h0 : ((⌊q⌋ : ℚ)) ≤ q := Int.floor_le q
  have h1 : q < (⌊q⌋ : ℚ) + 1 := Int.lt_floor_add_one q
  unfold pyRound at h ⊢
  split_ifs at h ⊢ with h2 h3 h4
  · exfalso
    rw [abs_of_nonpos (by linarith)] at h
    linarith
  · exfalso
    rw [abs_of_nonneg (by push_cast; linarith)] at h
    push_cast at h
    linarith
  · omega
  · omega

lemma precisionRound_sub (number : ℚ) (p : ℕ) :
    precisionRound number p - number =
      ((pyRound (number * 10 ^ p) : ℚ) - number * 10 ^ p) / 10 ^ p := by
  have hf : (10 : ℚ) ^ p ≠ 0 := by positivity
  unfold precisionRound
  field_simp
  ring

lemma precisionRound_abs_sub (number : ℚ) (p : ℕ) :
    |precisionRound number p - number| =
      |(pyRound (number * 10 ^ p) : ℚ) - number * 10 ^ p| / 10 ^ p := by
  have hf : (0 : ℚ) < 10 ^ p := by positivity
  rw [precisionRound_sub, abs_div, abs_of_pos hf]

lemma bitShift_pos_mono (st : BDState) (w : ℕ) :
    st.pos ≤ (bitShift st w).2.pos := by
  unfold bitShift
  split <;> simp

lemma bitShift_bindata (st : BDState) (w : ℕ) :
    (bitShift st w).2.bindata = st.bindata := by
  unfold bitShift
  split <;> rfl

lemma bitShift_pos_le (st : BDState) (w : ℕ) (h : st.pos ≤ st.bindata.length) :
    (bitShift st w).2.pos ≤ (bitShift st w).2.bindata.length := by
  by_cases hc : st.pos + w > st.bindata.length
  · simpa [bitShift, hc] using h
  · simp only [bitShift, hc, if_false]
    simp only [gt_iff_lt, not_lt] at hc
    simpa using hc

lemma posTrace_chain (ws : List ℕ) (st : BDState)
    (h : st.pos ≤ st.bindata.length) :
    List.Chain' (· ≤ ·) (st.pos :: posTrace st ws) ∧
    ∀ x ∈ st.pos :: posTrace st ws, x ≤ st.bindata.length := by
  induction ws generalizing st with
  | nil =>
    refine ⟨List.chain'_singleton _, ?_⟩
    intro x hx
    rw [posTrace, List.mem_singleton] at hx
    exact hx ▸ h
  | cons w ws ih =>
    have hbin : (bitShift st w).2.bindata = st.bindata := bitShift_bindata st w
    have h' : (bitShift st w).2.pos ≤ (bitShift st w).2.bindata.length :=
      bitShift_pos_le st w h
    obtain ⟨ihc, ihm⟩ := ih (bitShift st w).2 h'
    rw [posTrace]
    constructor
    · exact List.chain'_cons.mpr ⟨bitShift_pos_mono st w, ihc⟩
    · intro x hx
      rcases List.mem_cons.mp hx with rfl | hx'
      · exact h
      · have := ihm x hx'
        rwa [hbin] at this

lemma posTrace_last (ws : List ℕ) (st : BDState) :
    (st.pos :: posTrace st ws).getLast? = some (runReads st ws).2.pos := by
  induction ws generalizing st with
  | nil => rfl
  | cons w ws ih =>
    rw [posTrace, runReads, List.getLast?_cons_cons]
    exact ih (bitShift st w).2

/-! ## Claim theorems -/

/-- C1: decoding the 11-byte payload `[95,44,64,2,177,51,240,0,0,0,255]`
(base64 `"XyxAArEz8AAAAP8="`) with the primary weather-station profile yields
exactly `Type=1, Battery=3.75, Temperature=20.1, T_min=20.1, T_max=20.1,
Humidity=68.8, Pressure=992.7, Irradiation=0, Irr_max=0, Rain=0.0,
Rain_min_time=255.0`. -/
theorem barani_golden_decode :
    (BaraniDecode [95, 44, 64, 2, 177, 51, 240, 0, 0, 0, 255]).Type' = 1 ∧
    (BaraniDecode [95, 44, 64, 2, 177, 51, 240, 0, 0, 0, 255]).Battery = 3.75 ∧
    (BaraniDecode [95, 44, 64, 2, 177, 51, 240, 0, 0, 0, 255]).Temperature = 20.1 ∧
    (BaraniDecode [95, 44, 64, 2, 177, 51, 240, 0, 0, 0, 255]).T_min = 20.1 ∧
    (BaraniDecode [95, 44, 64, 2, 177, 51, 240, 0, 0, 0, 255]).T_max = 20.1 ∧
    (BaraniDecode [95, 44, 64, 2, 177, 51, 240, 0, 0, 0, 255]).Humidity = 68.8 ∧
    (BaraniDecode [95, 44, 64, 2, 177, 51, 240, 0, 0, 0, 255]).Pressure = 992.7 ∧
    (BaraniDecode [95, 44, 64, 2, 177, 51, 240, 0, 0, 0, 255]).Irradiation = 0 ∧
    (BaraniDecode [95, 44, 64, 2, 177, 51, 240, 0, 0, 0, 255]).Irr_max = 0 ∧
    (BaraniDecode [95, 44, 64, 2, 177, 51, 240, 0, 0, 0, 255]).Rain = 0 ∧
    (BaraniDecode [95, 44, 64, 2, 177, 51, 240, 0, 0, 0, 255]).Rain_min_time = 255 := by
  have hraws : baraniRaws [95, 44, 64, 2, 177, 51, 240, 0, 0, 0, 255] =
      [1, 15, 1201, 0, 0, 344, 9854, 0, 0, 0, 255] := by decide
  refine ⟨?_, ?_, ?_, ?_, ?_, ?_, ?_, ?_, ?_, ?_, ?_⟩ <;>
    · simp only [BaraniDecode, baraniFromRaws, baraniTemperature, hraws]
      norm_num [rawAt, precisionRound, pyRound]

/-- C2 counterexample: on a short read (empty payload, width 1) the claim
"returns 0 and still advances the cursor by the requested width" is false:
the cursor does not move to `0 + 1`. -/
theorem bitShift_underrun_claim_false :
    ¬ ((bitShift ⟨data2bits [], 0⟩ 1).1 = 0 ∧
       (bitShift ⟨data2bits [], 0⟩ 1).2.pos = 0 + 1) := by
  decide

/-- C2 amended: when the cursor plus the requested width exceeds the number
of available bits, `bitShift` returns 0 and leaves the whole reader state —
in particular the cursor — unchanged. -/
theorem bitShift_underrun_returns_zero_keeps_cursor (st : BDState) (w : ℕ)
    (h : st.bindata.length < st.pos + w) : bitShift st w = (0, st) := by
  simp [bitShift, h]

/-- C2 amended, witness at the empty payload and width 1. -/
theorem bitShift_underrun_witness :
    bitShift ⟨data2bits [], 0⟩ 1 = (0, ⟨data2bits [], 0⟩) :=
  bitShift_underrun_returns_zero_keeps_cursor ⟨data2bits [], 0⟩ 1 (by decide)

/-- C3 counterexample: at `number = 1/2`, `precision = 0` the helper does not
round half away from zero (Python's `round` takes the tie to the even
integer, so the result is `0`, not `1`). -/
theorem precisionRound_not_half_away :
    precisionRound (1 / 2) 0 ≠
      (roundHalfAwayFromZero ((1 / 2 : ℚ) * 10 ^ 0) : ℚ) / 10 ^ 0 := by
  norm_num [precisionRound, pyRound, roundHalfAwayFromZero]

/-- C3 amended: `precisionRound` follows the scale-round-unscale idiom with
round-half-to-even semantics at the chosen precision: the result scaled by
`10^precision` is the integer `pyRound` produced, the result is within half a
unit in the last decimal place of the input, and an exact tie is resolved to
an even scaled integer. -/
theorem precisionRound_rounds_half_to_even (number : ℚ) (precision : ℕ) :
    precisionRound number precision * 10 ^ precision =
      (pyRound (number * 10 ^ precision) : ℚ) ∧
    |precisionRound number precision - number| ≤ 1 / (2 * 10 ^ precision) ∧
    (|precisionRound number precision - number| = 1 / (2 * 10 ^ precision) →
      (2 : ℤ) ∣ pyRound (number * 10 ^ precision)) := by
  have hf : (0 : ℚ) < 10 ^ precision := by positivity
  refine ⟨?_, ?_, ?_⟩
  · unfold precisionRound
    field_simp
  · rw [precisionRound_abs_sub]
    rw [div_le_div_iff₀ hf (by positivity), one_mul]
    calc |(pyRound (number * 10 ^ precision) : ℚ) - number * 10 ^ precision| *
          (2 * 10 ^ precision)
        ≤ (1 / 2) * (2 * 10 ^ precision) := by
          apply mul_le_mul_of_nonneg_right (pyRound_abs_le _) (by positivity)
      _ = 10 ^ precision := by ring
  · intro htie
    apply pyRound_tie_even
    rw [precisionRound_abs_sub] at htie
    have hne : (10 : ℚ) ^ precision ≠ 0 := ne_of_gt hf
    have h1 : |(pyRound (number * 10 ^ precision) : ℚ) - number * 10 ^ precision|
        = (1 / (2 * 10 ^ precision)) * 10 ^ precision := by
      rw [← htie, div_mul_cancel₀ _ hne]
    rw [h1, div_mul_eq_mul_div, one_mul, mul_comm 2 ((10 : ℚ) ^ precision),
      ← div_div, div_self hne]

/-- C3 amended, witness at the tie `number = 1/2`, `precision = 0`. -/
theorem precisionRound_half_to_even_witness :
    (2 : ℤ) ∣ pyRound ((1 / 2 : ℚ) * 10 ^ 0) :=
  (precisionRound_rounds_half_to_even (1 / 2) 0).2.2
    (by norm_num [precisionRound, pyRound])

/-- C5 counterexample: decoding the empty payload with the primary profile
does not give an all-zero record — `Battery` is 3, not 0. -/
theorem barani_empty_not_all_zero :
    ¬ ((BaraniDecode []).Type' = 0 ∧ (BaraniDecode []).Battery = 0 ∧
       (BaraniDecode []).Temperature = 0 ∧ (BaraniDecode []).T_min = 0 ∧
       (BaraniDecode []).T_max = 0 ∧ (BaraniDecode []).Humidity = 0 ∧
       (BaraniDecode []).Pressure = 0 ∧ (BaraniDecode []).Irradiation = 0 ∧
       (BaraniDecode []).Irr_max = 0 ∧ (BaraniDecode []).Rain = 0 ∧
       (BaraniDecode []).Rain_min_time = 0) := by
  have hraws : baraniRaws [] = [0, 0, 0, 0, 0, 0, 0, 0, 0, 0, 0] := by decide
  have hB : (BaraniDecode []).Battery = 3 := by
    simp only [BaraniDecode, baraniFromRaws, hraws]
    norm_num [rawAt, precisionRound, pyRound]
  intro hAll
  rw [hB] at hAll
  exact absurd hAll.2.1 (by norm_num)

/-- C5 amended: a too-short primary-profile payload degrades gracefully with
every raw bitfield read as 0, so the record carries the transforms of zero
raw values, not zero field values: the empty payload yields `Type=0,
Battery=3, Temperature=-100, T_min=-100, T_max=-100, Humidity=0,
Pressure=500, Irradiation=0, Irr_max=0, Rain=0, Rain_min_time=0`. -/
theorem barani_empty_decode :
    (BaraniDecode []).Type' = 0 ∧ (BaraniDecode []).Battery = 3 ∧
    (BaraniDecode []).Temperature = -100 ∧ (BaraniDecode []).T_min = -100 ∧
    (BaraniDecode []).T_max = -100 ∧ (BaraniDecode []).Humidity = 0 ∧
    (BaraniDecode []).Pressure = 500 ∧ (BaraniDecode []).Irradiation = 0 ∧
    (BaraniDecode []).Irr_max = 0 ∧ (BaraniDecode []).Rain = 0 ∧
    (BaraniDecode []).Rain_min_time = 0 := by
  have hraws : baraniRaws [] = [0, 0, 0, 0, 0, 0, 0, 0, 0, 0, 0] := by decide
  refine ⟨?_, ?_, ?_, ?_, ?_, ?_, ?_, ?_, ?_, ?_, ?_⟩ <;>
    · simp only [BaraniDecode, baraniFromRaws, baraniTemperature, hraws]
      norm_num [rawAt, precisionRound, pyRound]

/-- C4: a payload shorter than 2 bytes given to the minimal ("simple")
profile yields only the payload-too-short error dict and never a partial
measurement record: no `Temperature` or `Humidity` entry appears. -/
theorem simple_short_payload_error (payload : List ℕ)
    (h : payload.length < 2) :
    simpleDecode payload = [("error", PyVal.str "Payload too short")] ∧
    ∀ kv ∈ simpleDecode payload, kv.1 ≠ "Temperature" ∧ kv.1 ≠ "Humidity" := by
  have hd : simpleDecode payload = [("error", PyVal.str "Payload too short")] := by
    simp [simpleDecode, h]
  refine ⟨hd, ?_⟩
  intro kv hkv
  rw [hd, List.mem_singleton] at hkv
  rw [hkv]
  exact ⟨by decide, by decide⟩

/-- C4 witness: the 1-byte payload `[65]`. -/
theorem simple_short_payload_error_witness :
    simpleDecode [65] = [("error", PyVal.str "Payload too short")] ∧
    ∀ kv ∈ simpleDecode [65], kv.1 ≠ "Temperature" ∧ kv.1 ≠ "Humidity" :=
  simple_short_payload_error [65] (by decide)

/-- `T_min` never exceeds `Temperature` in a primary-profile decode. -/
lemma barani_tmin_le_temperature (payload : List ℕ) :
    (BaraniDecode payload).T_min ≤ (BaraniDecode payload).Temperature := by
  obtain ⟨t, ht⟩ : ∃ n : ℕ, rawAt (baraniRaws payload) 2 = (n : ℚ) :=
    ⟨(baraniRaws payload).getD 2 0, rfl⟩
  obtain ⟨u, hu⟩ : ∃ n : ℕ, rawAt (baraniRaws payload) 3 = (n : ℚ) :=
    ⟨(baraniRaws payload).getD 3 0, rfl⟩
  have hT : baraniTemperature (baraniRaws payload)
      = rawAt (baraniRaws payload) 2 * (1 / 10) - 100 := by
    apply precisionRound_of_scaled_int _ 1 ((t : ℤ) - 1000)
    rw [ht]; push_cast; ring
  have hTmin : precisionRound (baraniTemperature (baraniRaws payload)
        - rawAt (baraniRaws payload) 3 * (1 / 10)) 1
      = baraniTemperature (baraniRaws payload)
        - rawAt (baraniRaws payload) 3 * (1 / 10) := by
    apply precisionRound_of_scaled_int _ 1 ((t : ℤ) - 1000 - (u : ℤ))
    rw [hT, ht, hu]; push_cast; ring
  have hu0 : (0 : ℚ) ≤ rawAt (baraniRaws payload) 3 := by rw [hu]; positivity
  simp only [BaraniDecode, baraniFromRaws]
  rw [hTmin]
  linarith

/-- `Temperature` never exceeds `T_max` in a primary-profile decode. -/
lemma barani_temperature_le_tmax (payload : List ℕ) :
    (BaraniDecode payload).Temperature ≤ (BaraniDecode payload).T_max := by
  obtain ⟨t, ht⟩ : ∃ n : ℕ, rawAt (baraniRaws payload) 2 = (n : ℚ) :=
    ⟨(baraniRaws payload).getD 2 0, rfl⟩
  obtain ⟨v, hv⟩ : ∃ n : ℕ, rawAt (baraniRaws payload) 4 = (n : ℚ) :=
    ⟨(baraniRaws payload).getD 4 0, rfl⟩
  have hT : baraniTemperature (baraniRaws payload)
      = rawAt (baraniRaws payload) 2 * (1 / 10) - 100 := by
    apply precisionRound_of_scaled_int _ 1 ((t : ℤ) - 1000)
    rw [ht]; push_cast; ring
  have hTmax : precisionRound (baraniTemperature (baraniRaws payload)
        + rawAt (baraniRaws payload) 4 * (1 / 10)) 1
      = baraniTemperature (baraniRaws payload)
        + rawAt (baraniRaws payload) 4 * (1 / 10) := by
    apply precisionRound_of_scaled_int _ 1 ((t : ℤ) - 1000 + (v : ℤ))
    rw [hT, ht, hv]; push_cast; ring
  have hv0 : (0 : ℚ) ≤ rawAt (baraniRaws payload) 4 := by rw [hv]; positivity
  simp only [BaraniDecode, baraniFromRaws]
  rw [hTmax]
  linarith

/-- `Irradiation` never exceeds `Irr_max` in a primary-profile decode. -/
lemma barani_irradiation_le_irrmax (payload : List ℕ) :
    (BaraniDecode payload).Irradiation ≤ (BaraniDecode payload).Irr_max := by
  obtain ⟨j, hj⟩ : ∃ n : ℕ, rawAt (baraniRaws payload) 8 = (n : ℚ) :=
    ⟨(baraniRaws payload).getD 8 0, rfl⟩
  have hj0 : (0 : ℚ) ≤ rawAt (baraniRaws payload) 8 := by rw [hj]; positivity
  simp only [BaraniDecode, baraniFromRaws]
  linarith

/-- C6: for every payload decoded with the primary profile,
`T_min ≤ Temperature ≤ T_max` and `Irradiation ≤ Irr_max`. -/
theorem barani_dependent_field_consistency (payload : List ℕ) :
    (BaraniDecode payload).T_min ≤ (BaraniDecode payload).Temperature ∧
    (BaraniDecode payload).Temperature ≤ (BaraniDecode payload).T_max ∧
    (BaraniDecode payload).Irradiation ≤ (BaraniDecode payload).Irr_max :=
  ⟨barani_tmin_le_temperature payload, barani_temperature_le_tmax payload,
   barani_irradiation_le_irrmax payload⟩

/-- C7: within one primary-profile decode the bit cursor starts at 0 and,
over the whole sequence of `bitShift` calls (widths `baraniWidths`), stays
between 0 and the total number of bits and never decreases. -/
theorem barani_cursor_invariant (payload : List ℕ) :
    List.Chain' (· ≤ ·) (0 :: posTrace ⟨data2bits payload, 0⟩ baraniWidths) ∧
    ∀ x ∈ 0 :: posTrace ⟨data2bits payload, 0⟩ baraniWidths,
      0 ≤ x ∧ x ≤ (data2bits payload).length := by
  have h := posTrace_chain baraniWidths ⟨data2bits payload, 0⟩ (by simp)
  exact ⟨h.1, fun x hx => ⟨Nat.zero_le x, h.2 x hx⟩⟩

/-- C7 witness: for the 1-byte payload `[255]`, the cursor value after the
first read is 2, inside the bounds. -/
theorem barani_cursor_invariant_witness :
    0 ≤ 2 ∧ 2 ≤ (data2bits [255]).length :=
  (barani_cursor_invariant [255]).2 2 (by decide)

/-- C9: for every payload of at least 2 bytes the minimal profile maps byte 0
minus 40 to `Temperature` and byte 1 to `Humidity`; in particular `[65, 50]`
gives `Temperature = 25` and `Humidity = 50`. -/
theorem simple_decode_maps_bytes :
    (∀ (b0 b1 : ℕ) (rest : List ℕ),
      simpleDecode (b0 :: b1 :: rest) =
        [("Temperature", PyVal.num ((b0 : ℚ) - 40)),
         ("Humidity", PyVal.num (b1 : ℚ)),
         ("Status", PyVal.str "Simple Decoded")]) ∧
    simpleDecode [65, 50] =
      [("Temperature", PyVal.num 25), ("Humidity", PyVal.num 50),
       ("Status", PyVal.str "Simple Decoded")] := by
  constructor
  · intro b0 b1 rest
    simp [simpleDecode]
  · norm_num [simpleDecode]

/-- C10: for every payload of at least 2 bytes the minimal profile's dict
has exactly the keys `Temperature`, `Humidity`, `Status` in that order, and
`Status` carries a fixed string constant. -/
theorem simple_decode_keys_and_status (payload : List ℕ)
    (h : 2 ≤ payload.length) :
    (simpleDecode payload).map Prod.fst = ["Temperature", "Humidity", "Status"] ∧
    ∃ t u, simpleDecode payload =
      [("Temperature", PyVal.num t), ("Humidity", PyVal.num u),
       ("Status", PyVal.str "Simple Decoded")] := by
  have hlt : ¬ payload.length < 2 := not_lt.mpr h
  refine ⟨?_, ?_⟩
  · simp [simpleDecode, hlt]
  · refine ⟨(payload.getD 0 0 : ℚ) - 40, (payload.getD 1 0 : ℚ), ?_⟩
    simp [simpleDecode, hlt]

/-- C10 witness: the payload `[65, 50]`. -/
theorem simple_decode_keys_and_status_witness :
    (simpleDecode [65, 50]).map Prod.fst = ["Temperature", "Humidity", "Status"] ∧
    ∃ t u, simpleDecode [65, 50] =
      [("Temperature", PyVal.num t), ("Humidity", PyVal.num u),
       ("Status", PyVal.str "Simple Decoded")] :=
  simple_decode_keys_and_status [65, 50] (by decide)

/-- C8: `decode(b, "v1") = decode(b, "barani")` for every payload `b`, and
any identifier that lowercases to a known alias selects the same profile as
the alias itself (case-insensitive lookup). -/
theorem decode_alias_equivalence :
    (∀ b, decode_payload b "v1" = decode_payload b "barani") ∧
    (∀ s b, pyLower s = "v1" → decode_payload b s = decode_payload b "v1") ∧
    (∀ s b, pyLower s = "barani" → decode_payload b s = decode_payload b "barani") ∧
    (∀ s b, pyLower s = "simple" → decode_payload b s = decode_payload b "simple") := by
  have hv1 : get_decoder "v1" = DecoderKind.barani := by decide
  have hba : get_decoder "barani" = DecoderKind.barani := by decide
  have hsi : get_decoder "simple" = DecoderKind.simple := by decide
  refine ⟨?_, ?_, ?_, ?_⟩
  · intro b
    simp [decode_payload, hv1, hba]
  · intro s b hs
    have hg : get_decoder s = DecoderKind.barani := by
      unfold get_decoder
      rw [hs]
      decide
    simp [decode_payload, hg, hv1]
  · intro s b hs
    have hg : get_decoder s = DecoderKind.barani := by
      unfold get_decoder
      rw [hs]
      decide
    simp [decode_payload, hg, hba]
  · intro s b hs
    have hg : get_decoder s = DecoderKind.simple := by
      unfold get_decoder
      rw [hs]
      decide
    simp [decode_payload, hg, hsi]

/-- C8 witness: the capitalizations `"V1"`, `"Barani"`, `"Simple"` on the
empty payload. -/
theorem decode_alias_equivalence_witness :
    decode_payload [] "V1" = decode_payload [] "v1" ∧
    decode_payload [] "Barani" = decode_payload [] "barani" ∧
    decode_payload [] "Simple" = decode_payload [] "simple" :=
  ⟨decode_alias_equivalence.2.1 "V1" [] (by decide),
   decode_alias_equivalence.2.2.1 "Barani" [] (by decide),
   decode_alias_equivalence.2.2.2 "Simple" [] (by decide)⟩
